import Mathlib

/-!
Verification development for the bililive-go recorder registry
(`src/recorders`) and the `configs.ByteSize` parsing/formatting code
(`src/configs`).

The recorder Manager itself is shipped outside the test tree, so its
operations are modelled from the specification (section 4 of spec.md) and
checked against the behaviour pinned down by `manager_test.go`.  The
`ByteSize` functions are translated directly from the Go source.
-/

namespace Recorders

/-- Sentinel and propagated errors surfaced by the Manager.
`recorderExist` and `recorderNotExist` are the two sentinel values;
`lifecycle n` stands for an arbitrary error returned by a lifecycle call
(`Start`, `Close`, `CloseForRestart`) and propagated unchanged. -/
inductive Err where
  | recorderExist
  | recorderNotExist
  | lifecycle (code : Nat)
deriving DecidableEq, Repr

/-- Observable lifecycle events, recorded in order.  Recorder instances are
identified by the order in which the Factory constructs them. -/
inductive Event where
  | factoryCall (rid : Nat)
  | startCall (rid : Nat) (ok : Bool)
  | closeForRestartCall (rid : Nat) (ok : Bool)
  | closeCall (rid : Nat) (ok : Bool)
deriving DecidableEq, Repr

/-- Recorder instance an event belongs to. -/
def Event.rid : Event → Nat
  | .factoryCall r => r
  | .startCall r _ => r
  | .closeForRestartCall r _ => r
  | .closeCall r _ => r

/-- Lookup in the registry association list (first match). -/
def regGet : List (String × Nat) → String → Option Nat
  | [], _ => none
  | (k, v) :: rest, r => if k = r then some v else regGet rest r

/-- Remove every entry for a key from the registry association list. -/
def regDel (l : List (String × Nat)) (r : String) : List (String × Nat) :=
  l.filter fun p => p.1 ≠ r

/-- Modelled from the spec: the Manager state.  `manager.go` is not part of
the available sources (only `manager_test.go` is), so the registry owned by
the Manager (RoomID → active Recorder), the Factory construction counter and
the trace of lifecycle calls are modelled from spec.md sections 3 and 4. -/
structure Manager where
  registry : List (String × Nat)
  nextId : Nat
  events : List Event
deriving DecidableEq, Repr

/-- A freshly constructed Manager with an empty registry. -/
def initManager : Manager := ⟨[], 0, []⟩

/-- Modelled from the spec: `AddRecorder(ctx, room)`.  If a Recorder is
already registered for the room, returns `ErrRecorderExist` without invoking
the Factory.  Otherwise the Factory constructs a fresh Recorder and `Start`
is called on it; the `startErr` oracle supplies the outcome of that `Start`
call (`none` = success).  On `Start` failure the Recorder is discarded,
nothing is registered and the error is returned; on success the Recorder is
registered before the call returns.  Factory construction itself is
modelled as always producing a fresh instance (construction errors
propagate exactly like `Start` errors per section 7 of the spec). -/
def addRecorder (m : Manager) (r : String) (startErr : Option Err) :
    Manager × Except Err Unit :=
  match regGet m.registry r with
  | some _ => (m, .error .recorderExist)
  | none =>
    let rid := m.nextId
    let m₁ : Manager :=
      { m with
        nextId := rid + 1
        events := m.events ++ [.factoryCall rid] }
    match startErr with
    | some e =>
        ({ m₁ with events := m₁.events ++ [.startCall rid false] }, .error e)
    | none =>
        ({ m₁ with
           registry := (r, rid) :: m₁.registry
           events := m₁.events ++ [.startCall rid true] }, .ok ())

/-- Modelled from the spec: `RestartRecorder(ctx, room)`.  Fails with
`ErrRecorderNotExist` when the room has no Recorder.  Otherwise
`CloseForRestart` is called on the old instance (outcome given by the
`cfrErr` oracle); on failure the error propagates and the registration is
left intact.  On success a replacement is constructed by the Factory and
started (outcome `startErr`); on `Start` failure the room ends up
unregistered, on success the replacement is swapped in under the same
RoomID. -/
def restartRecorder (m : Manager) (r : String) (cfrErr startErr : Option Err) :
    Manager × Except Err Unit :=
  match regGet m.registry r with
  | none => (m, .error .recorderNotExist)
  | some oldId =>
    match cfrErr with
    | some e =>
        ({ m with events := m.events ++ [.closeForRestartCall oldId false] },
         .error e)
    | none =>
      let m₁ : Manager :=
        { m with events := m.events ++ [.closeForRestartCall oldId true] }
      let rid := m₁.nextId
      let m₂ : Manager :=
        { m₁ with
          nextId := rid + 1
          events := m₁.events ++ [.factoryCall rid] }
      match startErr with
      | some e =>
          ({ m₂ with
             registry := regDel m₂.registry r
             events := m₂.events ++ [.startCall rid false] }, .error e)
      | none =>
          ({ m₂ with
             registry := (r, rid) :: regDel m₂.registry r
             events := m₂.events ++ [.startCall rid true] }, .ok ())

/-- Modelled from the spec: `RemoveRecorder(ctx, id)`.  Fails with
`ErrRecorderNotExist` when the room has no Recorder; otherwise `Close` is
called on the instance (outcome given by the `closeErr` oracle, recorded in
the event but treated as best-effort: it is logged, the entry is removed
either way and the call reports success). -/
def removeRecorder (m : Manager) (r : String) (closeErr : Option Err) :
    Manager × Except Err Unit :=
  match regGet m.registry r with
  | none => (m, .error .recorderNotExist)
  | some rid =>
      ({ m with
         registry := regDel m.registry r
         events := m.events ++ [.closeCall rid closeErr.isNone] },
       .ok ())

/-- Modelled from the spec: `GetRecorder(ctx, id)`, a read-only snapshot. -/
def getRecorder (m : Manager) (r : String) : Except Err Nat :=
  match regGet m.registry r with
  | some rid => .ok rid
  | none => .error .recorderNotExist

/-- Modelled from the spec: `HasRecorder(ctx, id)`, the existence
predicate. -/
def hasRecorder (m : Manager) (r : String) : Bool :=
  (regGet m.registry r).isSome

/-- Number of `Start` calls made on a given Recorder instance. -/
def countStart (es : List Event) (rid : Nat) : Nat :=
  es.countP fun e => match e with
    | .startCall r _ => r = rid
    | _ => false

/-- Number of `CloseForRestart` calls made on a given Recorder instance. -/
def countCFR (es : List Event) (rid : Nat) : Nat :=
  es.countP fun e => match e with
    | .closeForRestartCall r _ => r = rid
    | _ => false

/-- Number of `Close` calls made on a given Recorder instance. -/
def countClose (es : List Event) (rid : Nat) : Nat :=
  es.countP fun e => match e with
    | .closeCall r _ => r = rid
    | _ => false

/-- Manager states reachable from a fresh Manager by any sequence of
operations, with arbitrary lifecycle-call outcomes. -/
inductive Reachable : Manager → Prop
  | init : Reachable initManager
  | add (m : Manager) (r : String) (se : Option Err) :
      Reachable m → Reachable (addRecorder m r se).1
  | restart (m : Manager) (r : String) (ce se : Option Err) :
      Reachable m → Reachable (restartRecorder m r ce se).1
  | remove (m : Manager) (r : String) (ce : Option Err) :
      Reachable m → Reachable (removeRecorder m r ce).1

/-- Registry invariants: distinct keys (I1), distinct registered instances,
freshness of the instance counter, and every registered instance has a
successful `Start` event (I2). -/
def Inv (m : Manager) : Prop :=
  (m.registry.map Prod.fst).Nodup ∧
  (m.registry.map Prod.snd).Nodup ∧
  (∀ p ∈ m.registry, p.2 < m.nextId) ∧
  (∀ e ∈ m.events, e.rid < m.nextId) ∧
  (∀ p ∈ m.registry, Event.startCall p.2 true ∈ m.events)

/-- Modelled from the test: the value held by the package-level variable
`newRecorder` of package `recorders`, the Factory that `AddRecorder` and
`RestartRecorder` call (`manager_test.go` reassigns it with
`newRecorder = func(...)` and restores a backup with `defer`).  The value
determines, per room, the `Start` outcome of the Recorder it constructs. -/
structure FactoryVar where
  newRecorder : String → Option Err

/-- Process-wide state: the single package-global `newRecorder` variable
together with every Manager alive in the process. -/
structure ProcState where
  global : FactoryVar
  managers : List Manager

/-- Reassigning the package-global `newRecorder` variable, as the test does
to substitute a mock factory. -/
def setFactory (p : ProcState) (f : FactoryVar) : ProcState :=
  { p with global := f }

/-- Running `AddRecorder` on the i-th Manager of the process: the Factory
consulted is always the package-global one, whichever Manager runs. -/
def runAdd (p : ProcState) (i : Nat) (r : String) : Option (Except Err Unit) :=
  (p.managers[i]?).map fun m => (addRecorder m r (p.global.newRecorder r)).2

/-- A process holding two fresh Managers under a factory whose recorders
start successfully. -/
def procTwo : ProcState :=
  ⟨⟨fun _ => none⟩, [initManager, initManager]⟩

/-- A substituted test factory whose recorders fail to start. -/
def stubFactory : FactoryVar :=
  ⟨fun _ => some (.lifecycle 7)⟩

end Recorders

namespace Configs

/-!
Embedding of `configs.ByteSize` (`ParseByteSize`, `ByteSize.String`, the
YAML/JSON marshalling hooks).  Strings are modelled as `List Char`.
Go `float64` values are modelled as exact rationals: on every value these
functions are proved about here (integers below `2 ^ 53`, scaled by the
power-of-two unit multipliers, compared against `float64(math.MaxInt64) =
2 ^ 63`), the `float64` computations of the Go code are exact, so the
rational model agrees with the source.  Outside that domain the model is
deliberately not relied on: `strconv.ParseFloat` returns the correctly
rounded `float64` nearest the decimal literal (so long mantissas round,
e.g. 5.9999999999999999 becomes exactly 6.0) and Go's unchecked
`float64` → `int64` conversion is implementation-defined once the value
leaves the `int64` range; neither rounding nor that conversion is given a
bit-level model here.  `strconv.ParseFloat`'s exotic accepted forms (hex
mantissas, `inf`/`nan`, digit-separating underscores) are outside the
decimal grammar modelled here, as are non-ASCII code points in the
case-mapping and space-trimming helpers; none of them can be produced by
`ByteSize.String`. -/

/-- Decimal digit test on a character (byte range 48-57). -/
def isDigitC (c : Char) : Bool := decide (48 ≤ c.toNat) && decide (c.toNat ≤ 57)

/-- ASCII white space recognised by `strings.TrimSpace`. -/
def isSpaceC (c : Char) : Bool :=
  c = ' ' || c = '\t' || c = '\n' || c = Char.ofNat 11 || c = Char.ofNat 12 ||
    c = '\r'

/-- ASCII case mapping of `strings.ToUpper`. -/
def toUpperC (c : Char) : Char :=
  if 97 ≤ c.toNat ∧ c.toNat ≤ 122 then Char.ofNat (c.toNat - 32) else c

/-- ASCII case mapping of `strings.ToUpper`, over a whole string. -/
def toUpperStr (s : List Char) : List Char := s.map toUpperC

/-- Semantics of `strings.TrimSpace`. -/
def trimSpace (s : List Char) : List Char :=
  ((s.dropWhile isSpaceC).reverse.dropWhile isSpaceC).reverse

/-- Semantics of `strings.HasSuffix`: length guard plus a comparison of the
trailing slice. -/
def hasSuffix (s suf : List Char) : Bool :=
  decide (suf.length ≤ s.length) && decide (s.drop (s.length - suf.length) = suf)

/-- Digit characters as Go's integer formatting produces them. -/
def natDigitChar (d : Nat) : Char :=
  match d with
  | 0 => '0' | 1 => '1' | 2 => '2' | 3 => '3' | 4 => '4'
  | 5 => '5' | 6 => '6' | 7 => '7' | 8 => '8' | _ => '9'

/-- Decimal digits of a natural number: semantics of
`strconv.FormatInt(n, 10)` for nonnegative `n`. -/
def natDigits (n : Nat) : List Char :=
  if _h : n < 10 then [natDigitChar n]
  else natDigits (n / 10) ++ [natDigitChar (n % 10)]
termination_by n
decreasing_by exact Nat.div_lt_self (by omega) (by omega)

/-- Semantics of `strconv.FormatInt(n, 10)`. -/
def intDecimal (n : Int) : List Char :=
  if n < 0 then '-' :: natDigits (-n).toNat else natDigits n.toNat

/-- Accumulating decimal evaluator over characters. -/
def digitsValAux : List Char → Nat → Option Nat
  | [], acc => some acc
  | c :: cs, acc =>
    if isDigitC c then digitsValAux cs (acc * 10 + (c.toNat - 48)) else none

/-- Value of a nonempty all-digit string. -/
def digitsVal (cs : List Char) : Option Nat :=
  match cs with
  | [] => none
  | _ => digitsValAux cs 0

/-- Value of a possibly-empty all-digit string (an absent part of a float
literal contributes zero). -/
def digitsValE (cs : List Char) : Option Nat :=
  match cs with
  | [] => some 0
  | _ => digitsVal cs

/-- Semantics of `strconv.ParseInt(s, 10, 64)`: optional sign, decimal
digits, 64-bit range check. -/
def parseIntDec (s : List Char) : Option Int :=
  match s with
  | [] => none
  | c :: rest =>
    if c = '+' then
      (digitsVal rest).bind fun n =>
        if (n : Int) ≤ 2 ^ 63 - 1 then some (n : Int) else none
    else if c = '-' then
      (digitsVal rest).bind fun n =>
        if (n : Int) ≤ 2 ^ 63 then some (-(n : Int)) else none
    else
      (digitsVal (c :: rest)).bind fun n =>
        if (n : Int) ≤ 2 ^ 63 - 1 then some (n : Int) else none

/-- Split a string at the first character satisfying `p`: the part before
it, and — when such a character exists — the part after it. -/
def breakOnP (p : Char → Bool) : List Char → List Char × Option (List Char)
  | [] => ([], none)
  | c :: cs =>
    if p c then ([], some cs)
    else
      let r := breakOnP p cs
      (c :: r.1, r.2)

/-- Value of a float mantissa: integer part, optional dot, fraction part,
at least one digit overall. -/
def parseMantissa (m : List Char) : Option ℚ :=
  match breakOnP (fun c => c = '.') m with
  | (ip, none) => (digitsVal ip).map fun n => (n : ℚ)
  | (ip, some fp) =>
    if ip.isEmpty && fp.isEmpty then none
    else
      match digitsValE ip, digitsValE fp with
      | some i, some f => some ((i : ℚ) + (f : ℚ) / (10 : ℚ) ^ fp.length)
      | _, _ => none

/-- Value of the exponent part of a float literal, when one is present:
optional sign and decimal digits. -/
def parseExp : Option (List Char) → Option Int
  | none => some 0
  | some [] => none
  | some (d :: ds) =>
    if d = '-' then (digitsVal ds).map fun n => -(n : Int)
    else if d = '+' then (digitsVal ds).map fun n => (n : Int)
    else (digitsVal (d :: ds)).map fun n => (n : Int)

/-- Mantissa-and-exponent part of `strconv.ParseFloat`, after the sign has
been stripped. -/
def parseFloatBody (neg : Bool) (body : List Char) : Option ℚ :=
  match parseMantissa (breakOnP (fun x => x = 'e' || x = 'E') body).1,
        parseExp (breakOnP (fun x => x = 'e' || x = 'E') body).2 with
  | some mv, some ev =>
    some (if neg then -(mv * (10 : ℚ) ^ ev) else mv * (10 : ℚ) ^ ev)
  | _, _ => none

/-- Semantics of `strconv.ParseFloat(s, 64)` on the decimal grammar
(optional sign, decimal mantissa, optional decimal exponent), with the
value taken exactly. -/
def parseFloatDec (s : List Char) : Option ℚ :=
  match s with
  | [] => none
  | c :: rest =>
    parseFloatBody (decide (c = '-'))
      (if c = '-' ∨ c = '+' then rest else c :: rest)

/-- Go's `int64(f)` conversion on a `float64`: truncation toward zero. -/
def truncQ (q : ℚ) : Int := if 0 ≤ q then ⌊q⌋ else -⌊-q⌋

/-- The `ByteSize` unit constants (`B` through `TB`), in bytes. -/
def B : Int := 1

/-- 1024 bytes. -/
def KB : Int := 1024

/-- 1024 kilobytes. -/
def MB : Int := 1024 * 1024

/-- 1024 megabytes. -/
def GB : Int := 1024 * 1024 * 1024

/-- 1024 gigabytes. -/
def TB : Int := 1024 * 1024 * 1024 * 1024

/-- Errors of `ParseByteSize`, one constructor per `fmt.Errorf` site, each
carrying the offending input as the message does. -/
inductive ParseErr where
  | badFormat (s : List Char)
  | outOfRange (s : List Char)
  | badFormatUnits (s : List Char)
deriving DecidableEq, Repr

/-- The unit table of `ParseByteSize`, longest suffix first. -/
def unitsList : List (List Char × Int) :=
  [(['T', 'B'], TB), (['G', 'B'], GB), (['M', 'B'], MB), (['K', 'B'], KB),
   (['B'], B)]

/-- The suffix-matching loop of `ParseByteSize`: first matching unit wins;
a negative numeric value is returned as-is (truncated, multiplier not
applied); otherwise the product is range-checked against
`float64(math.MaxInt64) = 2 ^ 63` and truncated to an integer. -/
def matchUnit (s upper : List Char) :
    List (List Char × Int) → Except ParseErr Int
  | [] => .error (.badFormatUnits s)
  | (suf, mult) :: rest =>
    if hasSuffix upper suf then
      if (trimSpace (s.take (s.length - suf.length))).isEmpty then
        .error (.badFormat s)
      else
        match parseFloatDec (trimSpace (s.take (s.length - suf.length))) with
        | none => .error (.badFormat s)
        | some val =>
          if val < 0 then .ok (truncQ val)
          else if val * (mult : ℚ) > (2 : ℚ) ^ 63 then .error (.outOfRange s)
          else .ok (truncQ (val * (mult : ℚ)))
    else matchUnit s upper rest

/-- Translation of `configs.ParseByteSize` (the source rebinds
`s = TrimSpace(s)` before the unit loop, hence the doubled trim). -/
def parseByteSize (s₀ : List Char) : Except ParseErr Int :=
  if trimSpace s₀ = [] ∨ trimSpace s₀ = ['0'] then .ok 0
  else
    match parseIntDec (trimSpace s₀) with
    | some n => .ok n
    | none =>
      matchUnit (trimSpace (trimSpace s₀))
        (toUpperStr (trimSpace (trimSpace s₀))) unitsList

/-- Round to nearest, ties to even: the rounding used when a binary
`float64` is rendered at a fixed decimal precision. -/
def roundHalfEven (q : ℚ) : Int :=
  if q - ⌊q⌋ < 1 / 2 then ⌊q⌋
  else if q - ⌊q⌋ > 1 / 2 then ⌊q⌋ + 1
  else if ⌊q⌋ % 2 = 0 then ⌊q⌋ else ⌊q⌋ + 1

/-- Semantics of `strconv.FormatFloat(f, 'f', 2, 64)` for nonnegative `f`
(the only use site feeds it `abs/unit`). -/
def fmtFixed2 (q : ℚ) : List Char :=
  let n := roundHalfEven (q * 100)
  let ip := n.tdiv 100
  let fp := (n.tmod 100).toNat
  intDecimal ip ++ '.' :: (if fp < 10 then '0' :: natDigits fp else natDigits fp)

/-- The `switch` body of `(ByteSize).String` over the absolute value `a`
and the sign marker. -/
def byteSizeStringPos (a : Int) (sgn : List Char) : List Char :=
  if TB ≤ a ∧ a.tmod TB = 0 then sgn ++ intDecimal (a.tdiv TB) ++ ['T', 'B']
  else if GB ≤ a ∧ a.tmod GB = 0 then sgn ++ intDecimal (a.tdiv GB) ++ ['G', 'B']
  else if MB ≤ a ∧ a.tmod MB = 0 then sgn ++ intDecimal (a.tdiv MB) ++ ['M', 'B']
  else if KB ≤ a ∧ a.tmod KB = 0 then sgn ++ intDecimal (a.tdiv KB) ++ ['K', 'B']
  else if TB ≤ a then sgn ++ fmtFixed2 ((a : ℚ) / (TB : ℚ)) ++ ['T', 'B']
  else if GB ≤ a then sgn ++ fmtFixed2 ((a : ℚ) / (GB : ℚ)) ++ ['G', 'B']
  else if MB ≤ a then sgn ++ fmtFixed2 ((a : ℚ) / (MB : ℚ)) ++ ['M', 'B']
  else if KB ≤ a then sgn ++ fmtFixed2 ((a : ℚ) / (KB : ℚ)) ++ ['K', 'B']
  else sgn ++ intDecimal a

/-- Translation of `(ByteSize).String`.  Division and remainder on the
nonnegative absolute value use truncated division (`Int.tdiv`/`Int.tmod`),
matching Go's `/` and `%` on `int64`; `float64` division in the
two-decimal branches is modelled exactly in `ℚ`. -/
def byteSizeString (b : Int) : List Char :=
  if b = 0 then ['0']
  else byteSizeStringPos (if b < 0 then -b else b) (if b < 0 then ['-'] else [])

/-- A YAML scalar as the `yaml.Unmarshaler` hook successively tries to
read it: integer, float, or string. -/
inductive YamlVal where
  | int (n : Int)
  | float (q : ℚ)
  | str (s : List Char)

/-- Translation of `(ByteSize).UnmarshalYAML`. -/
def unmarshalYAML : YamlVal → Except ParseErr Int
  | .int n => .ok n
  | .float q => .ok (truncQ q)
  | .str s => parseByteSize s

/-- Translation of `(ByteSize).MarshalYAML`: emits `String()`. -/
def marshalYAML (b : Int) : YamlVal := .str (byteSizeString b)

/-- A JSON value as the `json.Unmarshaler` hook successively tries to read
it: number or string. -/
inductive JsonVal where
  | num (n : Int)
  | str (s : List Char)

/-- Translation of `(ByteSize).UnmarshalJSON`. -/
def unmarshalJSON : JsonVal → Except ParseErr Int
  | .num n => .ok n
  | .str s => parseByteSize s

/-- Translation of `(ByteSize).MarshalJSON`: emits the `String()` form as
a JSON string. -/
def marshalJSON (b : Int) : JsonVal := .str (byteSizeString b)

/-- Condition of C9's second disjunct: b is an exact multiple of the
largest unit among KB, MB, GB, TB not exceeding it. -/
def largestUnitExact (b : Int) : Prop :=
  (TB ≤ b ∧ TB ∣ b) ∨ (GB ≤ b ∧ b < TB ∧ GB ∣ b) ∨
  (MB ≤ b ∧ b < GB ∧ MB ∣ b) ∨ (KB ≤ b ∧ b < MB ∧ KB ∣ b)

end Configs

namespace Recorders

theorem regGet_eq_none_iff (l : List (String × Nat)) (r : String) :
    regGet l r = none ↔ ∀ p ∈ l, p.1 ≠ r := by
  induction l with
  | nil => simp [regGet]
  | cons hd tl ih =>
    obtain ⟨k, v⟩ := hd
    by_cases hk : k = r <;> simp [regGet, hk, ih]

theorem mem_of_regGet_eq_some {l : List (String × Nat)} {r : String} {v : Nat}
    (h : regGet l r = some v) : (r, v) ∈ l := by
  induction l with
  | nil => simp [regGet] at h
  | cons hd tl ih =>
    obtain ⟨k, w⟩ := hd
    by_cases hk : k = r
    · subst hk
      simp [regGet] at h
      simp [h]
    · simp [regGet, hk] at h
      exact List.mem_cons_of_mem _ (ih h)

theorem mem_regDel {l : List (String × Nat)} {r : String} {p : String × Nat} :
    p ∈ regDel l r ↔ p ∈ l ∧ p.1 ≠ r := by
  simp [regDel, List.mem_filter]

theorem regDel_sublist (l : List (String × Nat)) (r : String) :
    (regDel l r).Sublist l :=
  List.filter_sublist l

theorem regGet_regDel_self (l : List (String × Nat)) (r : String) :
    regGet (regDel l r) r = none := by
  rw [regGet_eq_none_iff]
  intro p hp
  exact (mem_regDel.1 hp).2

theorem regDel_cons (k : String) (v : Nat) (tl : List (String × Nat)) (r : String) :
    regDel ((k, v) :: tl) r =
      if k = r then regDel tl r else (k, v) :: regDel tl r := by
  by_cases hk : k = r <;> simp [regDel, hk]

theorem regGet_regDel_ne {r' r : String} (h : r' ≠ r) (l : List (String × Nat)) :
    regGet (regDel l r) r' = regGet l r' := by
  induction l with
  | nil => simp [regDel]
  | cons hd tl ih =>
    obtain ⟨k, v⟩ := hd
    rw [regDel_cons]
    by_cases hk : k = r
    · have hkr : ¬ (k = r') := fun hkr => h (by rw [← hkr, hk])
      rw [if_pos hk, ih]
      simp [regGet, hkr]
    · rw [if_neg hk]
      by_cases hk' : k = r'
      · simp [regGet, hk']
      · simp [regGet, hk', ih]

theorem key_eq_of_values_nodup {l : List (String × Nat)} {a b : String} {v : Nat}
    (hnd : (l.map Prod.snd).Nodup) (ha : (a, v) ∈ l) (hb : (b, v) ∈ l) : a = b := by
  have := List.inj_on_of_nodup_map hnd ha hb rfl
  exact congrArg Prod.fst this

theorem inv_init : Inv initManager := by
  refine ⟨List.nodup_nil, List.nodup_nil, ?_, ?_, ?_⟩ <;> simp [initManager]

theorem inv_add (m : Manager) (r : String) (se : Option Err) (h : Inv m) :
    Inv (addRecorder m r se).1 := by
  obtain ⟨hk, hv, hb, he, hs⟩ := h
  unfold addRecorder
  cases hg : regGet m.registry r with
  | some v => exact ⟨hk, hv, hb, he, hs⟩
  | none =>
    have hnotkey : ∀ p ∈ m.registry, p.1 ≠ r := (regGet_eq_none_iff _ _).1 hg
    cases se with
    | some e =>
      refine ⟨hk, hv, ?_, ?_, ?_⟩
      · intro p hp
        exact Nat.lt_succ_of_lt (hb p hp)
      · intro e he'
        simp only [List.mem_append, List.mem_singleton] at he'
        rcases he' with (he' | rfl) | rfl
        · exact Nat.lt_succ_of_lt (he e he')
        · exact Nat.lt_succ_self _
        · exact Nat.lt_succ_self _
      · intro p hp
        exact List.mem_append_left _ (List.mem_append_left _ (hs p hp))
    | none =>
      refine ⟨?_, ?_, ?_, ?_, ?_⟩
      · refine List.nodup_cons.2 ⟨?_, hk⟩
        intro hmem
        obtain ⟨p, hp, hp1⟩ := List.mem_map.1 hmem
        exact hnotkey p hp hp1
      · refine List.nodup_cons.2 ⟨?_, hv⟩
        intro hmem
        obtain ⟨p, hp, hp2⟩ := List.mem_map.1 hmem
        exact Nat.lt_irrefl _ (hp2 ▸ hb p hp)
      · intro p hp
        rcases List.mem_cons.1 hp with rfl | hp
        · exact Nat.lt_succ_self _
        · exact Nat.lt_succ_of_lt (hb p hp)
      · intro e he'
        simp only [List.mem_append, List.mem_singleton] at he'
        rcases he' with (he' | rfl) | rfl
        · exact Nat.lt_succ_of_lt (he e he')
        · exact Nat.lt_succ_self _
        · exact Nat.lt_succ_self _
      · intro p hp
        rcases List.mem_cons.1 hp with rfl | hp
        · exact List.mem_append_right _ (List.mem_singleton.2 rfl)
        · exact List.mem_append_left _ (List.mem_append_left _ (hs p hp))

theorem inv_restart (m : Manager) (r : String) (ce se : Option Err) (h : Inv m) :
    Inv (restartRecorder m r ce se).1 := by
  obtain ⟨hk, hv, hb, he, hs⟩ := h
  unfold restartRecorder
  cases hg : regGet m.registry r with
  | none => exact ⟨hk, hv, hb, he, hs⟩
  | some oldId =>
    have hold : (r, oldId) ∈ m.registry := mem_of_regGet_eq_some hg
    have holdlt : oldId < m.nextId := hb _ hold
    cases ce with
    | some e =>
      refine ⟨hk, hv, hb, ?_, ?_⟩
      · intro e he'
        simp only [List.mem_append, List.mem_singleton] at he'
        rcases he' with he' | rfl
        · exact he e he'
        · exact holdlt
      · intro p hp
        exact List.mem_append_left _ (hs p hp)
    | none =>
      have hkdel : ((regDel m.registry r).map Prod.fst).Nodup :=
        ((regDel_sublist _ _).map _).nodup hk
      have hvdel : ((regDel m.registry r).map Prod.snd).Nodup :=
        ((regDel_sublist _ _).map _).nodup hv
      cases se with
      | some e =>
        refine ⟨hkdel, hvdel, ?_, ?_, ?_⟩
        · intro p hp
          exact Nat.lt_succ_of_lt (hb p (mem_regDel.1 hp).1)
        · intro e he'
          simp only [List.mem_append, List.mem_singleton] at he'
          rcases he' with ((he' | rfl) | rfl) | rfl
          · exact Nat.lt_succ_of_lt (he e he')
          · exact Nat.lt_succ_of_lt holdlt
          · exact Nat.lt_succ_self _
          · exact Nat.lt_succ_self _
        · intro p hp
          exact List.mem_append_left _ (List.mem_append_left _
            (List.mem_append_left _ (hs p (mem_regDel.1 hp).1)))
      | none =>
        refine ⟨?_, ?_, ?_, ?_, ?_⟩
        · refine List.nodup_cons.2 ⟨?_, hkdel⟩
          intro hmem
          obtain ⟨p, hp, hp1⟩ := List.mem_map.1 hmem
          exact (mem_regDel.1 hp).2 hp1
        · refine List.nodup_cons.2 ⟨?_, hvdel⟩
          intro hmem
          obtain ⟨p, hp, hp2⟩ := List.mem_map.1 hmem
          exact Nat.lt_irrefl _ (hp2 ▸ hb p (mem_regDel.1 hp).1)
        · intro p hp
          rcases List.mem_cons.1 hp with rfl | hp
          · exact Nat.lt_succ_self _
          · exact Nat.lt_succ_of_lt (hb p (mem_regDel.1 hp).1)
        · intro e he'
          simp only [List.mem_append, List.mem_singleton] at he'
          rcases he' with ((he' | rfl) | rfl) | rfl
          · exact Nat.lt_succ_of_lt (he e he')
          · exact Nat.lt_succ_of_lt holdlt
          · exact Nat.lt_succ_self _
          · exact Nat.lt_succ_self _
        · intro p hp
          rcases List.mem_cons.1 hp with rfl | hp
          · exact List.mem_append_right _ (List.mem_singleton.2 rfl)
          · exact List.mem_append_left _ (List.mem_append_left _
              (List.mem_append_left _ (hs p (mem_regDel.1 hp).1)))

theorem inv_remove (m : Manager) (r : String) (ce : Option Err) (h : Inv m) :
    Inv (removeRecorder m r ce).1 := by
  obtain ⟨hk, hv, hb, he, hs⟩ := h
  unfold removeRecorder
  cases hg : regGet m.registry r with
  | none => exact ⟨hk, hv, hb, he, hs⟩
  | some rid =>
    have hold : (r, rid) ∈ m.registry := mem_of_regGet_eq_some hg
    refine ⟨((regDel_sublist _ _).map _).nodup hk,
            ((regDel_sublist _ _).map _).nodup hv, ?_, ?_, ?_⟩
    · intro p hp
      exact hb p (mem_regDel.1 hp).1
    · intro e he'
      simp only [List.mem_append, List.mem_singleton] at he'
      rcases he' with he' | rfl
      · exact he e he'
      · exact hb _ hold
    · intro p hp
      exact List.mem_append_left _ (hs p (mem_regDel.1 hp).1)

theorem inv_of_reachable {m : Manager} (h : Reachable m) : Inv m := by
  induction h with
  | init => exact inv_init
  | add m r se _ ih => exact inv_add m r se ih
  | restart m r ce se _ ih => exact inv_restart m r ce se ih
  | remove m r ce _ ih => exact inv_remove m r ce ih

theorem countStart_append (a b : List Event) (rid : Nat) :
    countStart (a ++ b) rid = countStart a rid + countStart b rid :=
  List.countP_append _ _ _

theorem countCFR_append (a b : List Event) (rid : Nat) :
    countCFR (a ++ b) rid = countCFR a rid + countCFR b rid :=
  List.countP_append _ _ _

theorem countClose_append (a b : List Event) (rid : Nat) :
    countClose (a ++ b) rid = countClose a rid + countClose b rid :=
  List.countP_append _ _ _

theorem countStart_eq_zero_of_lt {es : List Event} {n : Nat}
    (h : ∀ e ∈ es, e.rid < n) : countStart es n = 0 := by
  refine List.countP_eq_zero.2 ?_
  intro e he
  cases e with
  | startCall r ok =>
    have := h _ he
    simp only [Event.rid] at this
    simp [Nat.ne_of_lt this]
  | factoryCall r => simp
  | closeForRestartCall r ok => simp
  | closeCall r ok => simp

theorem countStart_nil (n : Nat) : countStart [] n = 0 := rfl

theorem countCFR_nil (n : Nat) : countCFR [] n = 0 := rfl

theorem countClose_nil (n : Nat) : countClose [] n = 0 := rfl

theorem countStart_startCall (r n : Nat) (ok : Bool) (es : List Event) :
    countStart (Event.startCall r ok :: es) n
      = (if r = n then 1 else 0) + countStart es n := by
  by_cases h : r = n <;>
    simp [countStart, List.countP_cons, h, Nat.add_comm]

theorem countStart_factoryCall (r n : Nat) (es : List Event) :
    countStart (Event.factoryCall r :: es) n = countStart es n := by
  simp [countStart, List.countP_cons]

theorem countStart_cfrCall (r n : Nat) (ok : Bool) (es : List Event) :
    countStart (Event.closeForRestartCall r ok :: es) n = countStart es n := by
  simp [countStart, List.countP_cons]

theorem countCFR_cfrCall (r n : Nat) (ok : Bool) (es : List Event) :
    countCFR (Event.closeForRestartCall r ok :: es) n
      = (if r = n then 1 else 0) + countCFR es n := by
  by_cases h : r = n <;>
    simp [countCFR, List.countP_cons, h, Nat.add_comm]

theorem countCFR_factoryCall (r n : Nat) (es : List Event) :
    countCFR (Event.factoryCall r :: es) n = countCFR es n := by
  simp [countCFR, List.countP_cons]

theorem countCFR_startCall (r n : Nat) (ok : Bool) (es : List Event) :
    countCFR (Event.startCall r ok :: es) n = countCFR es n := by
  simp [countCFR, List.countP_cons]

theorem countClose_closeCall (r n : Nat) (ok : Bool) (es : List Event) :
    countClose (Event.closeCall r ok :: es) n
      = (if r = n then 1 else 0) + countClose es n := by
  by_cases h : r = n <;>
    simp [countClose, List.countP_cons, h, Nat.add_comm]

/-- C1: registry invariants hold after every Manager operation — every
reachable state has pairwise-distinct RoomIDs (I1) and every registered
Recorder has a successful `Start` (I2, both recorded in `Inv`); moreover,
when `AddRecorder`'s `Start` call fails, the error is returned to the
caller and nothing is registered (the registry is unchanged). -/
theorem registry_invariants_hold (m : Manager) (r : String) (e : Err)
    (hm : Reachable m) (hg : regGet m.registry r = none) :
    Inv m ∧
    (addRecorder m r (some e)).2 = .error e ∧
    (addRecorder m r (some e)).1.registry = m.registry := by
  refine ⟨inv_of_reachable hm, ?_, ?_⟩ <;> simp [addRecorder, hg]

/-- Closed instance of C1 at a fresh Manager. -/
theorem registry_invariants_hold_witness :
    Inv initManager ∧
    (addRecorder initManager "test" (some (.lifecycle 3))).2
      = .error (.lifecycle 3) ∧
    (addRecorder initManager "test" (some (.lifecycle 3))).1.registry
      = initManager.registry :=
  registry_invariants_hold initManager "test" (.lifecycle 3) Reachable.init rfl

/-- C2: after a successful `AddRecorder` for a room, any further
`AddRecorder` for the same room returns the sentinel `ErrRecorderExist`
with the Manager state completely unchanged (in particular the Factory is
not invoked again), and the originally registered Recorder stays in
place. -/
theorem addRecorder_guarded (m : Manager) (r : String) (se : Option Err)
    (hg : regGet m.registry r = none) :
    (addRecorder m r none).2 = .ok () ∧
    addRecorder (addRecorder m r none).1 r se =
      ((addRecorder m r none).1, .error .recorderExist) ∧
    getRecorder (addRecorder m r none).1 r = .ok m.nextId := by
  refine ⟨by simp [addRecorder, hg], ?_, ?_⟩ <;>
    simp [addRecorder, getRecorder, regGet, hg]

/-- Closed instance of C2 on a fresh Manager. -/
theorem addRecorder_guarded_witness :
    (addRecorder initManager "test" none).2 = .ok () ∧
    addRecorder (addRecorder initManager "test" none).1 "test" none =
      ((addRecorder initManager "test" none).1, .error .recorderExist) ∧
    getRecorder (addRecorder initManager "test" none).1 "test"
      = .ok initManager.nextId :=
  addRecorder_guarded initManager "test" none rfl

/-- C3: a successful `RestartRecorder` performs exactly one
`CloseForRestart` on the previously registered instance and exactly one
`Start` on the freshly constructed instance, after which `GetRecorder`
returns only the new instance and the old one is unreachable through the
Manager under every RoomID. -/
theorem restartRecorder_swap (m : Manager) (r : String) (oldId : Nat)
    (hm : Reachable m) (hg : regGet m.registry r = some oldId) :
    (restartRecorder m r none none).2 = .ok () ∧
    countCFR (restartRecorder m r none none).1.events oldId
      = countCFR m.events oldId + 1 ∧
    countStart (restartRecorder m r none none).1.events m.nextId = 1 ∧
    getRecorder (restartRecorder m r none none).1 r = .ok m.nextId ∧
    m.nextId ≠ oldId ∧
    ∀ r', getRecorder (restartRecorder m r none none).1 r' ≠ .ok oldId := by
  obtain ⟨hk, hv, hb, he, hs⟩ := inv_of_reachable hm
  have hold : (r, oldId) ∈ m.registry := mem_of_regGet_eq_some hg
  have holdlt : oldId < m.nextId := hb _ hold
  refine ⟨?_, ?_, ?_, ?_, ?_, ?_⟩
  · simp [restartRecorder, hg]
  · simp [restartRecorder, hg, countCFR_append, countCFR_cfrCall,
      countCFR_factoryCall, countCFR_startCall, countCFR_nil]
  · have h0 : countStart m.events m.nextId = 0 := countStart_eq_zero_of_lt he
    simp [restartRecorder, hg, countStart_append, h0, countStart_startCall,
      countStart_factoryCall, countStart_cfrCall, countStart_nil]
  · simp [restartRecorder, hg, getRecorder, regGet]
  · exact Nat.ne_of_gt holdlt
  · intro r' hcontra
    by_cases hr : r' = r
    · subst hr
      simp only [restartRecorder, hg, getRecorder, regGet, if_pos rfl] at hcontra
      exact Nat.ne_of_gt holdlt (by injection hcontra)
    · have hne : ¬ (r = r') := fun h => hr h.symm
      simp only [restartRecorder, hg, getRecorder, regGet, if_neg hne] at hcontra
      rw [regGet_regDel_ne hr] at hcontra
      cases hget : regGet m.registry r' with
      | none => rw [hget] at hcontra; exact Except.noConfusion hcontra
      | some v =>
        rw [hget] at hcontra
        have hv' : v = oldId := by injection hcontra
        subst hv'
        have hmem' : (r', v) ∈ m.registry := mem_of_regGet_eq_some hget
        exact hr (key_eq_of_values_nodup hv hmem' hold)

/-- Closed instance of C3 after one successful `AddRecorder`. -/
theorem restartRecorder_swap_witness :
    (restartRecorder (addRecorder initManager "test" none).1 "test" none none).2
        = .ok () ∧
    countCFR (restartRecorder (addRecorder initManager "test" none).1 "test"
        none none).1.events 0
      = countCFR (addRecorder initManager "test" none).1.events 0 + 1 ∧
    countStart (restartRecorder (addRecorder initManager "test" none).1 "test"
        none none).1.events (addRecorder initManager "test" none).1.nextId = 1 ∧
    getRecorder (restartRecorder (addRecorder initManager "test" none).1 "test"
        none none).1 "test"
      = .ok (addRecorder initManager "test" none).1.nextId ∧
    (addRecorder initManager "test" none).1.nextId ≠ 0 ∧
    ∀ r', getRecorder (restartRecorder (addRecorder initManager "test" none).1
        "test" none none).1 r' ≠ .ok 0 :=
  restartRecorder_swap (addRecorder initManager "test" none).1 "test" 0
    (Reachable.add initManager "test" none Reachable.init) (by simp [addRecorder,
      initManager, regGet])

/-- C4: when `CloseForRestart` fails the restart aborts with that error
and the old Recorder stays registered; when `CloseForRestart` succeeds but
the replacement's `Start` fails, the error is returned and the RoomID ends
up unregistered. -/
theorem restartRecorder_failure (m : Manager) (r : String) (oldId : Nat)
    (e : Err) (se : Option Err) (hg : regGet m.registry r = some oldId) :
    ((restartRecorder m r (some e) se).2 = .error e ∧
     (restartRecorder m r (some e) se).1.registry = m.registry ∧
     getRecorder (restartRecorder m r (some e) se).1 r = .ok oldId) ∧
    ((restartRecorder m r none (some e)).2 = .error e ∧
     hasRecorder (restartRecorder m r none (some e)).1 r = false ∧
     getRecorder (restartRecorder m r none (some e)).1 r
       = .error .recorderNotExist) := by
  refine ⟨⟨?_, ?_, ?_⟩, ?_, ?_, ?_⟩ <;>
    simp [restartRecorder, hg, getRecorder, hasRecorder, regGet_regDel_self]

/-- Closed instance of C4 after one successful `AddRecorder`. -/
theorem restartRecorder_failure_witness :
    ((restartRecorder (addRecorder initManager "test" none).1 "test"
        (some (.lifecycle 1)) none).2 = .error (.lifecycle 1) ∧
     (restartRecorder (addRecorder initManager "test" none).1 "test"
        (some (.lifecycle 1)) none).1.registry
       = (addRecorder initManager "test" none).1.registry ∧
     getRecorder (restartRecorder (addRecorder initManager "test" none).1 "test"
        (some (.lifecycle 1)) none).1 "test" = .ok 0) ∧
    ((restartRecorder (addRecorder initManager "test" none).1 "test" none
        (some (.lifecycle 1))).2 = .error (.lifecycle 1) ∧
     hasRecorder (restartRecorder (addRecorder initManager "test" none).1 "test"
        none (some (.lifecycle 1))).1 "test" = false ∧
     getRecorder (restartRecorder (addRecorder initManager "test" none).1 "test"
        none (some (.lifecycle 1))).1 "test" = .error .recorderNotExist) :=
  restartRecorder_failure (addRecorder initManager "test" none).1 "test" 0
    (.lifecycle 1) none (by simp [addRecorder, initManager, regGet])

/-- C5: `RemoveRecorder` on a registered room calls `Close` exactly once on
the registered instance — whatever `Close` returns — and removes the entry,
so that `GetRecorder` and a second `RemoveRecorder` fail with
`ErrRecorderNotExist` and `HasRecorder` is false; `RemoveRecorder` on an
absent room fails with `ErrRecorderNotExist` leaving the state untouched
(no `Close` is called on anything). -/
theorem removeRecorder_terminal (m m₂ : Manager) (r : String) (rid : Nat)
    (ce ce' ce₂ : Option Err) (hg : regGet m.registry r = some rid)
    (hg₂ : regGet m₂.registry r = none) :
    (removeRecorder m r ce).2 = .ok () ∧
    countClose (removeRecorder m r ce).1.events rid
      = countClose m.events rid + 1 ∧
    getRecorder (removeRecorder m r ce).1 r = .error .recorderNotExist ∧
    (removeRecorder (removeRecorder m r ce).1 r ce').2
      = .error .recorderNotExist ∧
    hasRecorder (removeRecorder m r ce).1 r = false ∧
    (removeRecorder m₂ r ce₂).2 = .error .recorderNotExist ∧
    (removeRecorder m₂ r ce₂).1 = m₂ := by
  refine ⟨?_, ?_, ?_, ?_, ?_, ?_, ?_⟩ <;>
    simp [removeRecorder, hg, hg₂, getRecorder, hasRecorder,
      regGet_regDel_self, countClose_append, countClose_closeCall,
      countClose_nil, Nat.add_comm]

/-- Closed instance of C5 after one successful `AddRecorder`. -/
theorem removeRecorder_terminal_witness :
    (removeRecorder (addRecorder initManager "test" none).1 "test"
        (some (.lifecycle 2))).2 = .ok () ∧
    countClose (removeRecorder (addRecorder initManager "test" none).1 "test"
        (some (.lifecycle 2))).1.events 0
      = countClose (addRecorder initManager "test" none).1.events 0 + 1 ∧
    getRecorder (removeRecorder (addRecorder initManager "test" none).1 "test"
        (some (.lifecycle 2))).1 "test" = .error .recorderNotExist ∧
    (removeRecorder (removeRecorder (addRecorder initManager "test" none).1
        "test" (some (.lifecycle 2))).1 "test" none).2
      = .error .recorderNotExist ∧
    hasRecorder (removeRecorder (addRecorder initManager "test" none).1 "test"
        (some (.lifecycle 2))).1 "test" = false ∧
    (removeRecorder initManager "test" none).2 = .error .recorderNotExist ∧
    (removeRecorder initManager "test" none).1 = initManager :=
  removeRecorder_terminal (addRecorder initManager "test" none).1 initManager
    "test" 0 (some (.lifecycle 2)) none none
    (by simp [addRecorder, initManager, regGet]) rfl

/-- C6: `HasRecorder` is true exactly when `GetRecorder` succeeds and false
exactly when `GetRecorder` fails with `ErrRecorderNotExist`; both are pure
queries of the Manager state (they take the state and return only an
answer, so neither can mutate the registry), and `HasRecorder` never
fails. -/
theorem hasRecorder_iff_getRecorder (m : Manager) (r : String) :
    (hasRecorder m r = true ↔ ∃ rid, getRecorder m r = .ok rid) ∧
    (hasRecorder m r = false ↔ getRecorder m r = .error .recorderNotExist) := by
  unfold hasRecorder getRecorder
  cases regGet m.registry r <;> simp

/-- C8 counterexample: substituting the factory (intended for testing the
first Manager) changes the observable behaviour of the second, untouched
Manager — `AddRecorder` on Manager 1 succeeds under the original factory
but fails once the package-global `newRecorder` has been replaced, so the
claimed isolation of factory replacement does not hold. -/
theorem factory_substitution_not_isolated :
    runAdd procTwo 1 "room" = some (.ok ()) ∧
    runAdd (setFactory procTwo stubFactory) 1 "room"
      = some (.error (.lifecycle 7)) ∧
    runAdd procTwo 1 "room" ≠ runAdd (setFactory procTwo stubFactory) 1 "room" := by
  refine ⟨rfl, rfl, ?_⟩
  intro h
  simp [runAdd, procTwo, stubFactory, setFactory, addRecorder, initManager,
    regGet] at h

/-- C8 amended: the Recorder Factory is the package-global mutable variable
`newRecorder`, not a per-Manager injected value; reassigning it changes the
Factory consulted by every Manager in the process uniformly (the managers
themselves are untouched), and restoring the saved backup — as the test's
`defer` does — restores the process state exactly. -/
theorem factory_global_shared (p : ProcState) (f : FactoryVar) (i : Nat)
    (r : String) :
    runAdd (setFactory p f) i r =
      (p.managers[i]?).map (fun m => (addRecorder m r (f.newRecorder r)).2) ∧
    (setFactory p f).managers = p.managers ∧
    setFactory (setFactory p f) p.global = p :=
  ⟨rfl, rfl, rfl⟩

end Recorders

namespace Configs

theorem isDigitC_iff {c : Char} :
    isDigitC c = true ↔ 48 ≤ c.toNat ∧ c.toNat ≤ 57 := by
  simp [isDigitC]

theorem natDigitChar_isDigit (d : Nat) : isDigitC (natDigitChar d) = true := by
  unfold natDigitChar
  split <;> decide

theorem natDigitChar_val {d : Nat} (h : d < 10) : (natDigitChar d).toNat - 48 = d := by
  have hall : ∀ e < 10, (natDigitChar e).toNat - 48 = e := by decide
  exact hall d h

theorem natDigits_ne_nil (n : Nat) : natDigits n ≠ [] := by
  unfold natDigits
  split <;> simp

theorem natDigits_all_digit (n : Nat) : ∀ c ∈ natDigits n, isDigitC c = true := by
  induction n using natDigits.induct with
  | case1 n h =>
    rw [natDigits, dif_pos h]
    intro c hc
    rw [List.mem_singleton] at hc
    subst hc
    exact natDigitChar_isDigit n
  | case2 n h ih =>
    rw [natDigits, dif_neg h]
    intro c hc
    rcases List.mem_append.1 hc with hc | hc
    · exact ih c hc
    · rw [List.mem_singleton] at hc
      subst hc
      exact natDigitChar_isDigit _

theorem digitsValAux_append (xs ys : List Char) (acc : Nat) :
    digitsValAux (xs ++ ys) acc =
      match digitsValAux xs acc with
      | some a => digitsValAux ys a
      | none => none := by
  induction xs generalizing acc with
  | nil => simp [digitsValAux]
  | cons c cs ih =>
    by_cases hc : isDigitC c
    · simp [digitsValAux, hc, ih]
    · simp [digitsValAux, hc]

theorem digitsValAux_natDigits (n acc : Nat) :
    digitsValAux (natDigits n) acc
      = some (acc * 10 ^ (natDigits n).length + n) := by
  induction n using natDigits.induct generalizing acc with
  | case1 n h =>
    rw [natDigits, dif_pos h]
    simp [digitsValAux, natDigitChar_isDigit, natDigitChar_val h]
  | case2 n h ih =>
    rw [natDigits, dif_neg h]
    rw [digitsValAux_append, ih]
    have hm : n % 10 < 10 := Nat.mod_lt _ (by omega)
    simp only [digitsValAux, natDigitChar_isDigit, if_pos, natDigitChar_val hm,
      List.length_append, List.length_singleton]
    congr 1
    have hdm : n / 10 * 10 + n % 10 = n := by omega
    have e1 : (acc * 10 ^ (natDigits (n / 10)).length + n / 10) * 10 + n % 10
        = acc * (10 ^ (natDigits (n / 10)).length * 10)
          + (n / 10 * 10 + n % 10) := by ring
    rw [e1, hdm, ← pow_succ]

theorem digitsVal_natDigits (n : Nat) : digitsVal (natDigits n) = some n := by
  have h := digitsValAux_natDigits n 0
  rw [Nat.zero_mul, Nat.zero_add] at h
  unfold digitsVal
  split
  · next heq => exact absurd heq (natDigits_ne_nil n)
  · exact h

theorem digitsValAux_none_of_bad {c : Char} (hc : isDigitC c = false)
    (xs ys : List Char) (acc : Nat) :
    digitsValAux (xs ++ c :: ys) acc = none := by
  rw [digitsValAux_append]
  cases digitsValAux xs acc with
  | none => rfl
  | some a => simp [digitsValAux, hc]

theorem digitsValAux_lt {cs : List Char} {acc v : Nat}
    (h : digitsValAux cs acc = some v) : v < (acc + 1) * 10 ^ cs.length := by
  induction cs generalizing acc with
  | nil =>
    simp [digitsValAux] at h
    simp [h.symm]
  | cons c cs ih =>
    by_cases hc : isDigitC c
    · rw [digitsValAux, if_pos hc] at h
      have hd : c.toNat - 48 ≤ 9 := by
        obtain ⟨h1, h2⟩ := isDigitC_iff.1 hc
        omega
      have := ih h
      have hstep : (acc * 10 + (c.toNat - 48) + 1) * 10 ^ cs.length
          ≤ (acc + 1) * 10 ^ (c :: cs).length := by
        rw [List.length_cons, pow_succ]
        calc (acc * 10 + (c.toNat - 48) + 1) * 10 ^ cs.length
            ≤ ((acc + 1) * 10) * 10 ^ cs.length := by
              apply Nat.mul_le_mul_right
              omega
          _ = (acc + 1) * (10 ^ cs.length * 10) := by ring
      omega
    · rw [digitsValAux, if_neg hc] at h
      exact absurd h (by simp)

theorem digitsVal_lt {cs : List Char} {v : Nat} (h : digitsVal cs = some v) :
    v < 10 ^ cs.length := by
  unfold digitsVal at h
  cases cs with
  | nil => exact absurd h (by simp)
  | cons c cs' =>
    have := digitsValAux_lt h
    simpa using this

theorem ne_char_of_code {c d : Char} (n : Nat) (hd : d.toNat = n)
    (h : c.toNat < n ∨ n < c.toNat) : ¬ (c = d) := by
  intro he
  subst he
  omega

theorem isSpaceC_eq_false_of_ge {c : Char} (h : 33 ≤ c.toNat) :
    isSpaceC c = false := by
  have h1 : ¬ (c = ' ') := ne_char_of_code 32 (by decide) (Or.inr (by omega))
  have h2 : ¬ (c = '\t') := ne_char_of_code 9 (by decide) (Or.inr (by omega))
  have h3 : ¬ (c = '\n') := ne_char_of_code 10 (by decide) (Or.inr (by omega))
  have h4 : ¬ (c = Char.ofNat 11) :=
    ne_char_of_code 11 (by decide) (Or.inr (by omega))
  have h5 : ¬ (c = Char.ofNat 12) :=
    ne_char_of_code 12 (by decide) (Or.inr (by omega))
  have h6 : ¬ (c = '\r') := ne_char_of_code 13 (by decide) (Or.inr (by omega))
  simp [isSpaceC, h1, h2, h3, h4, h5, h6]

theorem digit_facts {c : Char} (h : isDigitC c = true) :
    isSpaceC c = false ∧ toUpperC c = c ∧ ¬ (c = '+') ∧ ¬ (c = '-') ∧
    ¬ (c = '.') ∧ ((fun x => x = 'e' || x = 'E') c) = false := by
  obtain ⟨h1, h2⟩ := isDigitC_iff.1 h
  refine ⟨isSpaceC_eq_false_of_ge (by omega), ?_, ?_, ?_, ?_, ?_⟩
  · unfold toUpperC
    rw [if_neg]
    omega
  · exact ne_char_of_code 43 (by decide) (Or.inr (by omega))
  · exact ne_char_of_code 45 (by decide) (Or.inr (by omega))
  · exact ne_char_of_code 46 (by decide) (Or.inr (by omega))
  · have he : ¬ (c = 'e') := ne_char_of_code 101 (by decide) (Or.inl (by omega))
    have hE : ¬ (c = 'E') := ne_char_of_code 69 (by decide) (Or.inl (by omega))
    simp [he, hE]

theorem dropWhile_eq_self_of_none {p : Char → Bool} {l : List Char}
    (h : ∀ c ∈ l, p c = false) : l.dropWhile p = l := by
  cases l with
  | nil => rfl
  | cons c cs =>
    rw [List.dropWhile_cons, if_neg]
    simp [h c (List.mem_cons_self c cs)]

theorem trimSpace_eq_self {s : List Char} (h : ∀ c ∈ s, isSpaceC c = false) :
    trimSpace s = s := by
  unfold trimSpace
  rw [dropWhile_eq_self_of_none h, dropWhile_eq_self_of_none, List.reverse_reverse]
  intro c hc
  exact h c (List.mem_reverse.1 hc)

theorem toUpperStr_eq_self {s : List Char} (h : ∀ c ∈ s, toUpperC c = c) :
    toUpperStr s = s := by
  unfold toUpperStr
  exact List.map_congr_left h |>.trans (List.map_id s)

theorem hasSuffix_append2 (xs : List Char) (a b c d : Char) :
    hasSuffix (xs ++ [a, b]) [c, d] = (decide (a = c) && decide (b = d)) := by
  unfold hasSuffix
  have hlen : (xs ++ [a, b]).length = xs.length + 2 := by simp
  have hdrop : (xs ++ [a, b]).drop ((xs ++ [a, b]).length - 2) = [a, b] := by
    rw [hlen, Nat.add_sub_cancel]
    have := @List.drop_append Char xs [a, b] 0
    simpa using this
  rw [show ([c, d] : List Char).length = 2 from rfl, hdrop, hlen]
  by_cases h1 : a = c <;> by_cases h2 : b = d <;> simp [h1, h2]

theorem take_sub_append {α : Type} (xs ys : List α) :
    (xs ++ ys).take ((xs ++ ys).length - ys.length) = xs := by
  have hlen : (xs ++ ys).length - ys.length = xs.length := by simp
  rw [hlen]
  have := @List.take_append α xs ys 0
  simpa using this

theorem breakOnP_none {p : Char → Bool} {s : List Char}
    (h : ∀ c ∈ s, p c = false) : breakOnP p s = (s, none) := by
  induction s with
  | nil => rfl
  | cons c cs ih =>
    rw [breakOnP, if_neg]
    · rw [ih fun x hx => h x (List.mem_cons_of_mem c hx)]
    · simp [h c (List.mem_cons_self c cs)]

theorem breakOnP_found {p : Char → Bool} {xs : List Char} {y : Char}
    (ys : List Char) (hxs : ∀ c ∈ xs, p c = false) (hy : p y = true) :
    breakOnP p (xs ++ y :: ys) = (xs, some ys) := by
  induction xs with
  | nil =>
    rw [List.nil_append, breakOnP, if_pos]
    simp [hy]
  | cons c cs ih =>
    rw [List.cons_append, breakOnP, if_neg]
    · rw [ih fun x hx => hxs x (List.mem_cons_of_mem c hx)]
    · simp [hxs c (List.mem_cons_self c cs)]

theorem all_digit_of_digitsValAux {cs : List Char} {acc v : Nat}
    (h : digitsValAux cs acc = some v) : ∀ c ∈ cs, isDigitC c = true := by
  induction cs generalizing acc with
  | nil => simp
  | cons c cs ih =>
    by_cases hc : isDigitC c
    · rw [digitsValAux, if_pos hc] at h
      intro x hx
      rcases List.mem_cons.1 hx with rfl | hx
      · exact hc
      · exact ih h x hx
    · rw [digitsValAux, if_neg hc] at h
      exact absurd h (by simp)

theorem all_digit_of_digitsVal {cs : List Char} {v : Nat}
    (h : digitsVal cs = some v) : ∀ c ∈ cs, isDigitC c = true := by
  unfold digitsVal at h
  cases cs with
  | nil => simp
  | cons c cs' => exact all_digit_of_digitsValAux h

theorem digitsVal_append_bad {xs ys : List Char} {c : Char}
    (hc : isDigitC c = false) : digitsVal (xs ++ c :: ys) = none := by
  unfold digitsVal
  split
  · rfl
  · exact digitsValAux_none_of_bad hc xs ys 0

theorem parseIntDec_natDigits {n : Nat} (h : (n : Int) ≤ 2 ^ 63 - 1) :
    parseIntDec (natDigits n) = some (n : Int) := by
  cases hnd : natDigits n with
  | nil => exact absurd hnd (natDigits_ne_nil n)
  | cons c rest =>
    have hc : isDigitC c = true :=
      natDigits_all_digit n c (hnd ▸ List.mem_cons_self c rest)
    obtain ⟨-, -, hplus, hminus, -, -⟩ := digit_facts hc
    simp only [parseIntDec]
    rw [if_neg hplus, if_neg hminus, ← hnd, digitsVal_natDigits]
    simp
    omega

theorem parseIntDec_digits_bad {xs us : List Char} {c₀ c : Char}
    (h₀ : isDigitC c₀ = true) (hc : isDigitC c = false)
    (hshape : c₀ :: xs = c₀ :: xs) :
    parseIntDec ((c₀ :: xs) ++ c :: us) = none := by
  obtain ⟨-, -, hplus, hminus, -, -⟩ := digit_facts h₀
  rw [List.cons_append, parseIntDec, if_neg hplus, if_neg hminus,
    ← List.cons_append, digitsVal_append_bad hc]
  rfl

theorem parseMantissa_digits {ds : List Char} {n : Nat}
    (h : digitsVal ds = some n) : parseMantissa ds = some ((n : ℚ)) := by
  have hall := all_digit_of_digitsVal h
  unfold parseMantissa
  have hbr : breakOnP (fun c => c = '.') ds = (ds, none) := by
    apply breakOnP_none
    intro c hc
    simp [(digit_facts (hall c hc)).2.2.2.2.1]
  rw [hbr]
  simp [h]

theorem parseFloatDec_natDigits (n : Nat) :
    parseFloatDec (natDigits n) = some ((n : ℚ)) := by
  cases hnd : natDigits n with
  | nil => exact absurd hnd (natDigits_ne_nil n)
  | cons c rest =>
    have hcin : c ∈ natDigits n := hnd ▸ List.mem_cons_self c rest
    have hc : isDigitC c = true := natDigits_all_digit n c hcin
    obtain ⟨-, -, hplus, hminus, -, heE⟩ := digit_facts hc
    simp only [parseFloatDec]
    have hsign : ¬ ((c = '-') ∨ (c = '+')) := by
      rintro h'
      rcases h' with h' | h'
      · exact hminus h'
      · exact hplus h'
    rw [if_neg hsign]
    unfold parseFloatBody
    have hbr : breakOnP (fun x => x = 'e' || x = 'E') (c :: rest)
        = (c :: rest, none) := by
      apply breakOnP_none
      intro x hx
      exact (digit_facts (natDigits_all_digit n x (hnd ▸ hx))).2.2.2.2.2
    rw [hbr]
    have hman : parseMantissa (c :: rest) = some ((n : ℚ)) := by
      rw [← hnd]
      exact parseMantissa_digits (digitsVal_natDigits n)
    rw [hman]
    have hnegc : (decide (c = '-')) = false := by simp [hminus]
    simp [hnegc, parseExp]

theorem truncQ_intCast (n : Int) : truncQ ((n : ℚ)) = n := by
  unfold truncQ
  by_cases h : (0 : ℚ) ≤ (n : ℚ)
  · rw [if_pos h, Int.floor_intCast]
  · rw [if_neg h, ← Int.cast_neg, Int.floor_intCast, neg_neg]

theorem truncQ_natCast (n : Nat) : truncQ ((n : ℚ)) = (n : Int) := by
  have : ((n : Int) : ℚ) = (n : ℚ) := by push_cast; rfl
  rw [← this, truncQ_intCast]

theorem take_sub_append2 (xs : List Char) (a b : Char) :
    (xs ++ [a, b]).take ((xs ++ [a, b]).length - 2) = xs :=
  take_sub_append xs [a, b]

theorem unit_miss {s upper suf : List Char} {mult : Int}
    {rest : List (List Char × Int)} (h : hasSuffix upper suf = false) :
    matchUnit s upper ((suf, mult) :: rest) = matchUnit s upper rest := by
  rw [matchUnit]
  simp [h]

theorem unit_hit_pos {s upper suf : List Char} {mult : Int}
    {rest : List (List Char × Int)} {num : List Char} {q : ℚ}
    (hhit : hasSuffix upper suf = true)
    (htake : trimSpace (s.take (s.length - suf.length)) = num)
    (hne : num.isEmpty = false)
    (hq : parseFloatDec num = some q) (hqnn : ¬ (q < 0))
    (hsmall : ¬ (q * (mult : ℚ) > (2 : ℚ) ^ 63)) :
    matchUnit s upper ((suf, mult) :: rest)
      = .ok (truncQ (q * (mult : ℚ))) := by
  rw [matchUnit]
  simp only [hhit, if_true, htake, hne, hq]
  simp only [Bool.false_eq_true, if_false]
  rw [if_neg hqnn, if_neg hsmall]

theorem parseByteSize_unit_path {s : List Char} (htrim : trimSpace s = s)
    (hnil : s ≠ []) (h0 : s ≠ ['0']) (hint : parseIntDec s = none) :
    parseByteSize s = matchUnit s (toUpperStr s) unitsList := by
  unfold parseByteSize
  rw [htrim, htrim]
  rw [if_neg (by rintro (h | h); exacts [hnil h, h0 h])]
  simp only [hint]

theorem parseByteSize_digits_unit (q : Nat) (c₁ : Char) (u : Int) (hq : 0 < q)
    (hin : (c₁, u) ∈ [('T', TB), ('G', GB), ('M', MB), ('K', KB)])
    (hbound : ((q : ℚ)) * (u : ℚ) ≤ (2 : ℚ) ^ 63) :
    parseByteSize (natDigits q ++ [c₁, 'B']) = .ok ((q : Int) * u) := by
  have hall := natDigits_all_digit q
  have hds_ns : ∀ c ∈ natDigits q, isSpaceC c = false :=
    fun c hc => (digit_facts (hall c hc)).1
  have hds_up : ∀ c ∈ natDigits q, toUpperC c = c :=
    fun c hc => (digit_facts (hall c hc)).2.1
  have hdsne : natDigits q ≠ [] := natDigits_ne_nil q
  have hdse : (natDigits q).isEmpty = false := by
    cases h : natDigits q with
    | nil => exact absurd h hdsne
    | cons a t => rfl
  have htr_ds : trimSpace (natDigits q) = natDigits q := trimSpace_eq_self hds_ns
  have hpf : parseFloatDec (natDigits q) = some ((q : ℚ)) :=
    parseFloatDec_natDigits q
  have hq0 : ¬ ((q : ℚ) < 0) := by
    refine not_lt.2 ?_
    positivity
  have hqb : ¬ ((q : ℚ) * (u : ℚ) > (2 : ℚ) ^ 63) := not_lt.2 hbound
  have htrq : truncQ ((q : ℚ) * (u : ℚ)) = (q : Int) * u := by
    have hcst : ((q : ℚ)) * (u : ℚ) = (((q : Int) * u : Int) : ℚ) := by
      push_cast
      ring
    rw [hcst, truncQ_intCast]
  have hlen : ∀ c₂ : Char, (natDigits q ++ [c₂, 'B']) ≠ ['0'] := by
    intro c₂ he
    have hl := congrArg List.length he
    simp at hl
  have hletterok : ∀ c₂ : Char, isSpaceC c₂ = false → toUpperC c₂ = c₂ →
      trimSpace (natDigits q ++ [c₂, 'B']) = natDigits q ++ [c₂, 'B'] ∧
      toUpperStr (natDigits q ++ [c₂, 'B']) = natDigits q ++ [c₂, 'B'] := by
    intro c₂ hns hup
    constructor
    · apply trimSpace_eq_self
      intro c hc
      rcases List.mem_append.1 hc with hc | hc
      · exact hds_ns c hc
      · rcases List.mem_cons.1 hc with rfl | hc
        · exact hns
        · rcases List.mem_cons.1 hc with rfl | hc
          · decide
          · simp at hc
    · apply toUpperStr_eq_self
      intro c hc
      rcases List.mem_append.1 hc with hc | hc
      · exact hds_up c hc
      · rcases List.mem_cons.1 hc with rfl | hc
        · exact hup
        · rcases List.mem_cons.1 hc with rfl | hc
          · decide
          · simp at hc
  have hint : ∀ c₂ : Char, isDigitC c₂ = false →
      parseIntDec (natDigits q ++ [c₂, 'B']) = none := by
    intro c₂ hbad
    cases hnd : natDigits q with
    | nil => exact absurd hnd hdsne
    | cons d₀ ds' =>
      have h₀ : isDigitC d₀ = true :=
        hall d₀ (hnd ▸ List.mem_cons_self d₀ ds')
      exact parseIntDec_digits_bad h₀ hbad rfl
  simp only [List.mem_cons, List.not_mem_nil, or_false] at hin
  rcases hin with h | h | h | h <;>
    (rw [Prod.mk.injEq] at h; obtain ⟨rfl, rfl⟩ := h)
  · obtain ⟨htrim, hup⟩ := hletterok 'T' (by decide) (by decide)
    rw [parseByteSize_unit_path htrim (by simp) (hlen 'T')
      (hint 'T' (by decide)), hup]
    simp only [unitsList]
    rw [unit_hit_pos (by rw [hasSuffix_append2]; decide)
      (show trimSpace ((natDigits q ++ ['T', 'B']).take
          ((natDigits q ++ ['T', 'B']).length - 2)) = natDigits q from by
        rw [take_sub_append2]; exact htr_ds)
      hdse hpf hq0 hqb, htrq]
  · obtain ⟨htrim, hup⟩ := hletterok 'G' (by decide) (by decide)
    rw [parseByteSize_unit_path htrim (by simp) (hlen 'G')
      (hint 'G' (by decide)), hup]
    simp only [unitsList]
    rw [unit_miss (by rw [hasSuffix_append2]; decide)]
    rw [unit_hit_pos (by rw [hasSuffix_append2]; decide)
      (show trimSpace ((natDigits q ++ ['G', 'B']).take
          ((natDigits q ++ ['G', 'B']).length - 2)) = natDigits q from by
        rw [take_sub_append2]; exact htr_ds)
      hdse hpf hq0 hqb, htrq]
  · obtain ⟨htrim, hup⟩ := hletterok 'M' (by decide) (by decide)
    rw [parseByteSize_unit_path htrim (by simp) (hlen 'M')
      (hint 'M' (by decide)), hup]
    simp only [unitsList]
    rw [unit_miss (by rw [hasSuffix_append2]; decide)]
    rw [unit_miss (by rw [hasSuffix_append2]; decide)]
    rw [unit_hit_pos (by rw [hasSuffix_append2]; decide)
      (show trimSpace ((natDigits q ++ ['M', 'B']).take
          ((natDigits q ++ ['M', 'B']).length - 2)) = natDigits q from by
        rw [take_sub_append2]; exact htr_ds)
      hdse hpf hq0 hqb, htrq]
  · obtain ⟨htrim, hup⟩ := hletterok 'K' (by decide) (by decide)
    rw [parseByteSize_unit_path htrim (by simp) (hlen 'K')
      (hint 'K' (by decide)), hup]
    simp only [unitsList]
    rw [unit_miss (by rw [hasSuffix_append2]; decide)]
    rw [unit_miss (by rw [hasSuffix_append2]; decide)]
    rw [unit_miss (by rw [hasSuffix_append2]; decide)]
    rw [unit_hit_pos (by rw [hasSuffix_append2]; decide)
      (show trimSpace ((natDigits q ++ ['K', 'B']).take
          ((natDigits q ++ ['K', 'B']).length - 2)) = natDigits q from by
        rw [take_sub_append2]; exact htr_ds)
      hdse hpf hq0 hqb, htrq]

theorem roundtrip_unit_case (b u : Int) (c₁ : Char) (hb0 : 0 ≤ b)
    (h1 : b < 2 ^ 63) (hupos : 0 < u) (hle : u ≤ b) (hdvd : u ∣ b)
    (hin : (c₁, u) ∈ [('T', TB), ('G', GB), ('M', MB), ('K', KB)]) :
    parseByteSize (natDigits (b.tdiv u).toNat ++ [c₁, 'B']) = .ok b := by
  obtain ⟨c, hc⟩ := hdvd
  have hcpos : 0 < c := by
    have hb : (0 : Int) < b := lt_of_lt_of_le hupos hle
    rw [hc] at hb
    rcases mul_pos_iff.1 hb with ⟨_, h⟩ | ⟨h, _⟩
    · exact h
    · omega
  have htdiv : b.tdiv u = c := by
    rw [hc]
    exact Int.mul_tdiv_cancel_left _ (ne_of_gt hupos)
  rw [htdiv]
  have hcb : ((c.toNat : Int)) = c := Int.toNat_of_nonneg (le_of_lt hcpos)
  have hbq : ((b : ℚ)) ≤ (2 : ℚ) ^ 63 := by
    have h2 : ((b : ℚ)) < (((2 : Int) ^ 63 : Int) : ℚ) := by exact_mod_cast h1
    push_cast at h2
    linarith
  have hbound : ((c.toNat : ℚ)) * (u : ℚ) ≤ (2 : ℚ) ^ 63 := by
    have hc1 : ((c.toNat : ℚ)) = ((c : Int) : ℚ) := by exact_mod_cast hcb
    have he : ((c.toNat : ℚ)) * (u : ℚ) = ((b : Int) : ℚ) := by
      rw [hc1, hc]
      push_cast
      ring
    rw [he]
    exact hbq
  rw [parseByteSize_digits_unit c.toNat c₁ u (by omega) hin hbound]
  congr 1
  rw [hcb, hc]
  ring

/-- C9: for every nonnegative in-range ByteSize that is below 1KB or an
exact multiple of the largest unit not exceeding it, formatting then
parsing returns exactly the original value with no error, and the
YAML/JSON marshal/unmarshal pair (which round through the same `String()`
output) restores it unchanged. -/
theorem byteSize_roundtrip (b : Int) (h0 : 0 ≤ b) (h1 : b < 2 ^ 63)
    (h2 : b < 1024 ∨ largestUnitExact b) :
    parseByteSize (byteSizeString b) = .ok b ∧
    unmarshalYAML (marshalYAML b) = .ok b ∧
    unmarshalJSON (marshalJSON b) = .ok b := by
  have hmain : parseByteSize (byteSizeString b) = .ok b := by
    by_cases hb0 : b = 0
    · subst hb0
      rw [byteSizeString, if_pos rfl]
      rfl
    · have hbneg : ¬ (b < 0) := not_lt.2 h0
      rw [byteSizeString, if_neg hb0, if_neg hbneg, if_neg hbneg]
      rcases h2 with hsmall | hunit
      · have hnKB : ¬ (KB ≤ b) := by unfold KB; omega
        have hnMB : ¬ (MB ≤ b) := by unfold MB; unfold KB at hnKB; omega
        have hnGB : ¬ (GB ≤ b) := by unfold GB; unfold KB at hnKB; omega
        have hnTB : ¬ (TB ≤ b) := by unfold TB; unfold KB at hnKB; omega
        rw [byteSizeStringPos,
          if_neg (fun h => hnTB h.1), if_neg (fun h => hnGB h.1),
          if_neg (fun h => hnMB h.1), if_neg (fun h => hnKB h.1),
          if_neg hnTB, if_neg hnGB, if_neg hnMB, if_neg hnKB,
          List.nil_append, intDecimal, if_neg hbneg]
        have hq : 0 < b.toNat := by omega
        have htrim := trimSpace_eq_self
          (fun c hc => (digit_facts (natDigits_all_digit b.toNat c hc)).1)
        have h0' : natDigits b.toNat ≠ ['0'] := by
          intro he
          have hv := digitsVal_natDigits b.toNat
          rw [he] at hv
          have hv0 : digitsVal ['0'] = some 0 := by decide
          rw [hv0] at hv
          injection hv with hv'
          omega
        unfold parseByteSize
        rw [htrim, htrim,
          if_neg (by rintro (h | h); exacts [natDigits_ne_nil _ h, h0' h])]
        have hpi := @parseIntDec_natDigits b.toNat
          (show ((b.toNat : Int)) ≤ 2 ^ 63 - 1 by omega)
        simp only [hpi]
        rw [Int.toNat_of_nonneg h0]
      · have hKBp : (0 : Int) < KB := by decide
        have hMBp : (0 : Int) < MB := by decide
        have hGBp : (0 : Int) < GB := by decide
        have hTBp : (0 : Int) < TB := by decide
        rcases hunit with ⟨hle, hdvd⟩ | ⟨hle, hlt, hdvd⟩ | ⟨hle, hlt, hdvd⟩ |
          ⟨hle, hlt, hdvd⟩
        · have htmod : b.tmod TB = 0 := by
            rw [Int.tmod_eq_emod h0 (le_of_lt hTBp)]
            exact Int.emod_eq_zero_of_dvd hdvd
          rw [byteSizeStringPos, if_pos ⟨hle, htmod⟩, List.nil_append,
            intDecimal, if_neg (not_lt.2 (Int.tdiv_nonneg h0 (le_of_lt hTBp)))]
          exact roundtrip_unit_case b TB 'T' h0 h1 hTBp hle hdvd (by simp)
        · have htmod : b.tmod GB = 0 := by
            rw [Int.tmod_eq_emod h0 (le_of_lt hGBp)]
            exact Int.emod_eq_zero_of_dvd hdvd
          rw [byteSizeStringPos, if_neg (fun h => absurd h.1 (not_le.2 hlt)),
            if_pos ⟨hle, htmod⟩, List.nil_append,
            intDecimal, if_neg (not_lt.2 (Int.tdiv_nonneg h0 (le_of_lt hGBp)))]
          exact roundtrip_unit_case b GB 'G' h0 h1 hGBp hle hdvd (by simp)
        · have htmod : b.tmod MB = 0 := by
            rw [Int.tmod_eq_emod h0 (le_of_lt hMBp)]
            exact Int.emod_eq_zero_of_dvd hdvd
          have hltTB : b < TB := by
            unfold GB at hlt
            unfold TB
            omega
          rw [byteSizeStringPos, if_neg (fun h => absurd h.1 (not_le.2 hltTB)),
            if_neg (fun h => absurd h.1 (not_le.2 hlt)),
            if_pos ⟨hle, htmod⟩, List.nil_append,
            intDecimal, if_neg (not_lt.2 (Int.tdiv_nonneg h0 (le_of_lt hMBp)))]
          exact roundtrip_unit_case b MB 'M' h0 h1 hMBp hle hdvd (by simp)
        · have htmod : b.tmod KB = 0 := by
            rw [Int.tmod_eq_emod h0 (le_of_lt hKBp)]
            exact Int.emod_eq_zero_of_dvd hdvd
          have hltGB : b < GB := by
            unfold MB at hlt
            unfold GB
            omega
          have hltTB : b < TB := by
            unfold MB at hlt
            unfold TB
            omega
          rw [byteSizeStringPos, if_neg (fun h => absurd h.1 (not_le.2 hltTB)),
            if_neg (fun h => absurd h.1 (not_le.2 hltGB)),
            if_neg (fun h => absurd h.1 (not_le.2 hlt)),
            if_pos ⟨hle, htmod⟩, List.nil_append,
            intDecimal, if_neg (not_lt.2 (Int.tdiv_nonneg h0 (le_of_lt hKBp)))]
          exact roundtrip_unit_case b KB 'K' h0 h1 hKBp hle hdvd (by simp)
  exact ⟨hmain, hmain, hmain⟩

/-- Closed instance of C9 at 2048 bytes, an exact multiple of KB. -/
theorem byteSize_roundtrip_witness :
    parseByteSize (byteSizeString 2048) = .ok 2048 ∧
    unmarshalYAML (marshalYAML 2048) = .ok 2048 ∧
    unmarshalJSON (marshalJSON 2048) = .ok 2048 :=
  byteSize_roundtrip 2048 (by decide) (by decide)
    (Or.inr (Or.inr (Or.inr (Or.inr ⟨by decide, by decide, ⟨2, by decide⟩⟩))))

end Configs
